import Mathlib

/-!
Verification development for the `wgtui` WireGuard status viewer.

The core under study is `InterfacesMap::refresh` (dump parsing and
configuration-directory reconciliation), the `Display` implementations for
`WgInterface` and `WgPeer`, `WgInterface::toggle_privkey`, and
`time_to_english`, all from `src/interface.rs`.

Rust strings are embedded as `List Char`; `str::split` on a one-character
separator is `splitSep`; the process-aborting paths (a failed `expect`,
`unreachable!`, or an out-of-bounds index) are modelled as `none` in
`Option`-returning functions, so that "the refresh fails and the stored map
is never replaced" is visible in the model.
-/

/-- Model of Rust `str::split(sep)` for a one-character separator: splits at
every occurrence, keeping empty pieces, and always returns at least one
piece (`splitSep c [] = [[]]`, like `"".split(c)` yielding `[""]`). -/
def splitSep (sep : Char) : List Char → List (List Char)
  | [] => [[]]
  | c :: rest =>
    let r := splitSep sep rest
    if c = sep then [] :: r
    else
      match r with
      | [] => [[c]]
      | x :: xs => (c :: x) :: xs

/-- Join a list of pieces with a separator list between consecutive pieces
(no trailing separator); used to build dump texts from their lines. -/
def joinWith (sep : List Char) : List (List Char) → List Char
  | [] => []
  | [x] => x
  | x :: y :: rest => x ++ sep ++ joinWith sep (y :: rest)

/-- Strip `pat` from the front of `s`, returning the remainder when `pat`
is a prefix of `s`. -/
def stripPre : List Char → List Char → Option (List Char)
  | [], s => some s
  | _ :: _, [] => none
  | p :: ps, c :: cs => if p = c then stripPre ps cs else none

/-- Fuelled worker for Rust's non-overlapping left-to-right split on a
multi-character pattern (the basis of `str::contains` / `str::replace`).
Fuel `s.length` always suffices for a nonempty pattern, since every step
consumes at least one character. -/
def findSplit (pat : List Char) : Nat → List Char → List (List Char)
  | _, [] => [[]]
  | 0, s => [s]
  | fuel + 1, c :: rest =>
    match stripPre pat (c :: rest) with
    | some rem => [] :: findSplit pat fuel rem
    | none =>
      match findSplit pat fuel rest with
      | [] => [[c]]
      | x :: xs => (c :: x) :: xs

/-- Split `s` at every non-overlapping occurrence of `pat`. -/
def rustSplitAll (s pat : List Char) : List (List Char) :=
  findSplit pat s.length s

/-- Model of Rust `str::contains(pat)`: `pat` occurs in `s` exactly when the
split has more than one piece. -/
def rustContains (s pat : List Char) : Bool :=
  decide (1 < (rustSplitAll s pat).length)

/-- Model of Rust `str::replace(pat, rep)`: replace every non-overlapping
occurrence of `pat`, left to right. -/
def rustReplace (s pat rep : List Char) : List Char :=
  joinWith rep (rustSplitAll s pat)

/-- Accumulating decimal-digit reader: fails on the first non-digit. -/
def parseDigitsAux (acc : Nat) : List Char → Option Nat
  | [] => some acc
  | c :: cs => if c.isDigit then parseDigitsAux (acc * 10 + (c.toNat - 48)) cs else none

/-- Model of Rust `str::parse::<uN>()` for an unsigned integer of bit width
`width`: an optional leading `+`, then one or more decimal digits, value
below `2 ^ width`; anything else is `Err`. -/
def rustParseUint (width : Nat) (s : List Char) : Option Nat :=
  let body := match s with
    | '+' :: rest => rest
    | other => other
  match body with
  | [] => none
  | _ :: _ =>
    match parseDigitsAux 0 body with
    | none => none
    | some n => if n < 2 ^ width then some n else none

/-- Decimal rendering of a natural number, as Rust `to_string` produces. -/
def natStr (n : Nat) : List Char :=
  (Nat.repr n).data

/-- Field-for-field embedding of the Rust `WgPeer` struct; the `u64` fields
are naturals that the parser only ever fills with values below `2 ^ 64`. -/
structure WgPeer where
  public_key : List Char
  preshared_key : Option (List Char)
  endpoint : List Char
  allowed_ips : List Char
  latest_handshake : Nat
  transfer_rx : Nat
  transfer_tx : Nat
  persistent_keepalive : Bool
deriving DecidableEq, Repr

/-- Field-for-field embedding of the Rust `WgInterface` struct. -/
structure WgInterface where
  enabled : Bool
  private_key : List Char
  public_key : List Char
  listen_port : Nat
  fwmark : Option (List Char)
  peers : List WgPeer
  show_priv : Bool
deriving DecidableEq, Repr

/-- The Rust `Default` impl for `WgInterface`: down, empty keys, port 0,
no fwmark, no peers, key hidden. -/
def wgDefault : WgInterface :=
  { enabled := false
    private_key := []
    public_key := []
    listen_port := 0
    fwmark := none
    peers := []
    show_priv := false }

/-- Embedding of `WgInterface::toggle_privkey`: flip `show_priv` in place. -/
def WgInterface.toggle_privkey (w : WgInterface) : WgInterface :=
  { w with show_priv := !w.show_priv }

/-- The `persistent_keepalive` sentinel: `"off"` / `"on"`; any other value
hits the Rust `unreachable!` panic, modelled as `none`. -/
def parseOnOff (s : List Char) : Option Bool :=
  if s = "off".data then some false
  else if s = "on".data then some true
  else none

/-- Parse one already-split peer line, mirroring the closure in `refresh`:
Rust indexes `x[1]`..`x[8]` (panic when fewer than 9 fields, modelled as
`none`), maps the `"(none)"` preshared-key sentinel to `None`, parses the
three `u64` counters, and collapses the keepalive sentinel to a boolean. -/
def parsePeerFields (x : List (List Char)) : Option WgPeer :=
  if 9 ≤ x.length then
    match rustParseUint 64 (x.getD 5 []), rustParseUint 64 (x.getD 6 []),
          rustParseUint 64 (x.getD 7 []), parseOnOff (x.getD 8 []) with
    | some hs, some rx, some tx, some ka =>
      some { public_key := x.getD 1 []
             preshared_key := if x.getD 2 [] = "(none)".data then none else some (x.getD 2 [])
             endpoint := x.getD 3 []
             allowed_ips := x.getD 4 []
             latest_handshake := hs
             transfer_rx := rx
             transfer_tx := tx
             persistent_keepalive := ka }
    | _, _, _, _ => none
  else none

/-- Lexicographic (code-point) order on strings, the order a Rust
`BTreeMap<String, _>` keys by (UTF-8 byte order coincides with code-point
order). -/
def lexLt : List Char → List Char → Bool
  | [], [] => false
  | [], _ :: _ => true
  | _ :: _, [] => false
  | a :: as, b :: bs => if a < b then true else if a = b then lexLt as bs else false

/-- Insertion into a `BTreeMap<String, WgInterface>` modelled as an
association list sorted by `lexLt`; an existing key's value is replaced. -/
def btreeInsert (k : List Char) (v : WgInterface) :
    List (List Char × WgInterface) → List (List Char × WgInterface)
  | [] => [(k, v)]
  | (k', v') :: rest =>
    if lexLt k k' then (k, v) :: (k', v') :: rest
    else if k = k' then (k, v) :: rest
    else (k', v') :: btreeInsert k v rest

/-- Lookup in the modelled map. -/
def mapLookup (m : List (List Char × WgInterface)) (k : List Char) : Option WgInterface :=
  match m with
  | [] => none
  | (k', v) :: rest => if k = k' then some v else mapLookup rest k

/-- Model of `BTreeMap::contains_key`. -/
def containsKey (m : List (List Char × WgInterface)) (k : List Char) : Bool :=
  (mapLookup m k).isSome

/-- The scan loop of `InterfacesMap::refresh` over the (already popped)
dump lines. A line splitting into exactly 5 tab-separated fields (the
5-element pattern below is exactly Rust's `line.len() == 5` check, after
which Rust indexes `line[0]`..`line[4]`) starts an interface record; its
peers are the immediately following lines taken while their leading field
equals the interface name, exactly as the Rust
`lines.iter().skip(i + 1) ... take_while(|x| line[0] == x[0])` does, since
`skip (i + 1)` of the full line list is the tail `rest` here. Any `expect`
or `unreachable!` panic on the Rust side is `none`. -/
def parseLines : List (List Char) → List (List Char × WgInterface) →
    Option (List (List Char × WgInterface))
  | [], acc => some acc
  | l :: rest, acc =>
    let fields := splitSep '\t' l
    if fields.length = 5 then
      match rustParseUint 16 (fields.getD 3 []) with
      | none => none
      | some port =>
        match ((rest.map (splitSep '\t')).takeWhile
            (fun x => fields.getD 0 [] = x.headD [])).mapM parsePeerFields with
        | none => none
        | some peers =>
          parseLines rest (btreeInsert (fields.getD 0 [])
            { enabled := true
              private_key := fields.getD 1 []
              public_key := fields.getD 2 []
              listen_port := port
              fwmark := if fields.getD 4 [] = "off".data then none
                        else some (fields.getD 4 [])
              peers := peers
              show_priv := false } acc)
    else parseLines rest acc

/-- The line preprocessing of `refresh`: split the raw dump text on
newlines and unconditionally `pop` the last element (the artifact empty
segment the tool's trailing separator produces). -/
def dumpLines (dump : List Char) : List (List Char) :=
  (splitSep '\n' dump).dropLast

/-- The Dump Parser: preprocessing plus the scan loop, from an empty map. -/
def parseDump (dump : List Char) : Option (List (List Char × WgInterface)) :=
  parseLines (dumpLines dump) []

/-- The fixed configuration-file suffix. -/
def confSuffix : List Char := ".conf".data

/-- The whole `refresh` computation as a function of its two external
inputs: the dump text (the stdout of a succeeding `wg show all dump`) and
the configuration-directory listing. After the parse, every file name
containing `".conf"` has all its `".conf"` occurrences deleted
(`x.replace(".conf", "")`), and each resulting base name not already a key
receives a `Default::default()` record. `none` is any panic during the
parse, under which the Rust process dies before `self.interfaces` is
assigned. -/
def refreshResult (dump : List Char) (confFiles : List (List Char)) :
    Option (List (List Char × WgInterface)) :=
  match parseDump dump with
  | none => none
  | some interfaces =>
    let interfaces_down :=
      ((confFiles.filter (fun x => rustContains x confSuffix)).map
        (fun x => rustReplace x confSuffix [])).filter
        (fun x => !containsKey interfaces x)
    some (interfaces_down.foldl (fun m item => btreeInsert item wgDefault m) interfaces)

/-- Embedding of the Rust `InterfacesMap` struct. -/
structure InterfacesMap where
  interfaces : List (List Char × WgInterface)
  current_interface : List Char

/-- Registry-level `refresh`: on success the stored map is replaced whole;
on a parse panic the Rust process aborts before the assignment, so the
previously stored map is never replaced — modelled as returning the
registry unchanged. -/
def InterfacesMap.refresh (self : InterfacesMap) (dump : List Char)
    (confFiles : List (List Char)) : InterfacesMap :=
  match refreshResult dump confFiles with
  | none => self
  | some m => { self with interfaces := m }

/-- Interpret a 32-bit pattern (a natural number, reduced mod `2 ^ 32`) as
the signed `i32` value it encodes under two's complement. -/
def toI32 (n : Nat) : Int :=
  if n % 2 ^ 32 < 2 ^ 31 then ((n % 2 ^ 32 : Nat) : Int)
  else ((n % 2 ^ 32 : Nat) : Int) - 2 ^ 32

/-- Decimal rendering of a signed integer, as Rust `i32::to_string`
produces (a `-` sign followed by the digits when negative). -/
def intStr (i : Int) : List Char :=
  (Int.repr i).data

/-- The day/hour/minute counting loop of `time_to_english`, with the three
accumulators; returns `(days, hours, minutes, remaining seconds)`. The Rust
accumulators are unannotated integer literals, hence `i32`: each `+= 1` is
a 32-bit operation, kept here as the bit pattern with an explicit
`% 2 ^ 32` per increment (the release-build wrapping; a debug build would
abort at the first overflowing increment, at `t ≥ 2 ^ 31` days' worth of
seconds, so past that point this models the release build). The loop
conditions only inspect `t` (a `u64`), so the wrapping never affects
control flow. -/
def timeLoop (t days hours minutes : Nat) : Nat × Nat × Nat × Nat :=
  if h0 : 60 ≤ t then
    if h1 : 86400 ≤ t then timeLoop (t - 86400) ((days + 1) % 2 ^ 32) hours minutes
    else if h2 : 3600 ≤ t then timeLoop (t - 3600) days ((hours + 1) % 2 ^ 32) minutes
    else timeLoop (t - 60) days hours ((minutes + 1) % 2 ^ 32)
  else (days, hours, minutes, t)
termination_by t
decreasing_by
  · omega
  · omega
  · omega

/-- Embedding of `time_to_english` (its Rust result is always `Ok`, so the
`Result` wrapper is dropped): run the counting loop, then append one phrase
per nonzero unit, singular at exactly 1, with a trailing space on the
day/hour/minute phrases and none on the seconds phrase. The day/hour/minute
counters are `i32` in the source, so their `> 0` / `== 1` tests and
`to_string` read the 32-bit pattern as a signed value; the residual `time`
is the `u64` input variable itself. -/
def time_to_english (t : Nat) : List Char :=
  match timeLoop t 0 0 0 with
  | (days, hours, minutes, time) =>
    let daysI := toI32 days
    let hoursI := toI32 hours
    let minutesI := toI32 minutes
    (if 0 < daysI then intStr daysI ++ (if daysI = 1 then " day ".data else " days ".data) else [])
    ++ (if 0 < hoursI then
          intStr hoursI ++ (if hoursI = 1 then " hour ".data else " hours ".data)
        else [])
    ++ (if 0 < minutesI then
          intStr minutesI ++ (if minutesI = 1 then " minute ".data else " minutes ".data)
        else [])
    ++ (if 0 < time then natStr time ++ (if time = 1 then " second".data else " seconds".data) else [])

/-- Embedding of the `Display` impl for `WgPeer`, with the ambient clock
passed explicitly as `now` (epoch seconds); Rust's `u64` subtraction
`time - latest_handshake` is total here, matching Rust whenever
`latest_handshake ≤ now`. -/
def WgPeer.render (p : WgPeer) (now : Nat) : List Char :=
  let time_since := time_to_english (now - p.latest_handshake)
  "Public Key: ".data ++ p.public_key ++ "\n".data
  ++ "Preshared Key: ".data ++ p.preshared_key.getD "(none)".data ++ "\n".data
  ++ "Endpoint: ".data ++ p.endpoint ++ "\n".data
  ++ "Allowed Ips: ".data ++ p.allowed_ips ++ "\n".data
  ++ "Latest handshake: ".data ++ time_since ++ "\n".data
  ++ "Transfer: ".data ++ natStr p.transfer_rx ++ " B recieved, ".data
  ++ natStr p.transfer_tx ++ " B sent\n".data
  ++ "Persistent Keepalive: ".data
  ++ (if p.persistent_keepalive then "true".data else "false".data) ++ "\n".data

/-- Embedding of the `Display` impl for `WgInterface`: the fixed message
for a down interface, otherwise the key/port/fwmark block (private key
shown only when `show_priv`), the peer banner, each peer followed by a
separating newline, and the final lone space. -/
def WgInterface.render (w : WgInterface) (now : Nat) : List Char :=
  if !w.enabled then "Interface is down.".data
  else
    "Private Key: ".data
    ++ (if w.show_priv then w.private_key else "(hidden)".data) ++ "\n".data
    ++ "Public Key: ".data ++ w.public_key ++ "\n".data
    ++ "Listen Port: ".data ++ natStr w.listen_port ++ "\n".data
    ++ "fwmark: ".data ++ w.fwmark.getD "off".data ++ "\n".data
    ++ "----- Peers -----\n".data
    ++ (w.peers.map (fun p => p.render now ++ "\n".data)).flatten
    ++ " ".data

/-! ## Basic lemmas about `splitSep` and `joinWith` -/

theorem splitSep_of_not_mem (sep : Char) (l : List Char) (h : sep ∉ l) :
    splitSep sep l = [l] := by
  induction l with
  | nil => rfl
  | cons c rest ih =>
    have hc : ¬ c = sep := fun e => h (e ▸ List.mem_cons_self c rest)
    have hr : sep ∉ rest := fun m => h (List.mem_cons_of_mem _ m)
    simp [splitSep, hc, ih hr]

theorem splitSep_append_cons (sep : Char) (l r : List Char) (h : sep ∉ l) :
    splitSep sep (l ++ sep :: r) = l :: splitSep sep r := by
  induction l with
  | nil => simp [splitSep]
  | cons c rest ih =>
    have hc : ¬ c = sep := fun e => h (e ▸ List.mem_cons_self c rest)
    have hr : sep ∉ rest := fun m => h (List.mem_cons_of_mem _ m)
    simp [splitSep, hc, ih hr]

theorem splitSep_joinWith (sep : Char) (ls : List (List Char)) (hne : ls ≠ [])
    (h : ∀ l ∈ ls, sep ∉ l) : splitSep sep (joinWith [sep] ls) = ls := by
  induction ls with
  | nil => exact absurd rfl hne
  | cons x ys ih =>
    cases ys with
    | nil => simpa [joinWith] using splitSep_of_not_mem sep x (h x (by simp))
    | cons y zs =>
      have hj : joinWith [sep] (x :: y :: zs) = x ++ sep :: joinWith [sep] (y :: zs) := by
        simp [joinWith]
      rw [hj, splitSep_append_cons sep x _ (h x (by simp)),
        ih (by simp) (fun l hl => h l (List.mem_cons_of_mem _ hl))]

theorem splitSep_terminated (sep : Char) (ls : List (List Char))
    (h : ∀ l ∈ ls, sep ∉ l) :
    splitSep sep ((ls.map (fun l => l ++ [sep])).flatten) = ls ++ [[]] := by
  induction ls with
  | nil => simp [splitSep]
  | cons x ys ih =>
    have : (((x :: ys).map (fun l => l ++ [sep])).flatten)
        = x ++ sep :: ((ys.map (fun l => l ++ [sep])).flatten) := by
      simp
    rw [this, splitSep_append_cons sep x _ (h x (by simp)),
      ih (fun l hl => h l (List.mem_cons_of_mem _ hl))]
    rfl

theorem mem_joinWith (c : Char) (sep : List Char) (fs : List (List Char))
    (hmem : c ∈ joinWith sep fs) : c ∈ sep ∨ ∃ f ∈ fs, c ∈ f := by
  induction fs with
  | nil => simp [joinWith] at hmem
  | cons x ys ih =>
    cases ys with
    | nil =>
      simp [joinWith] at hmem
      exact Or.inr ⟨x, by simp, hmem⟩
    | cons y zs =>
      simp only [joinWith, List.mem_append] at hmem
      rcases hmem with (hx | hs) | hrest
      · exact Or.inr ⟨x, by simp, hx⟩
      · exact Or.inl hs
      · rcases ih hrest with hs | ⟨f, hf, hcf⟩
        · exact Or.inl hs
        · exact Or.inr ⟨f, List.mem_cons_of_mem _ hf, hcf⟩

/-! ## The counting loop of the Duration Formatter -/

theorem timeLoop_spec (t d h m : Nat) (hd : d < 2 ^ 32) (hh : h < 2 ^ 32)
    (hm : m < 2 ^ 32) :
    timeLoop t d h m
      = ((d + t / 86400) % 2 ^ 32, (h + t % 86400 / 3600) % 2 ^ 32,
         (m + t % 3600 / 60) % 2 ^ 32, t % 60) := by
  induction t using Nat.strong_induction_on generalizing d h m with
  | _ t ih =>
    rw [timeLoop]
    split
    · next h0 =>
      split
      · next h1 =>
        rw [ih (t - 86400) (by omega) _ _ _ (Nat.mod_lt _ (by norm_num)) hh hm]
        simp only [Prod.mk.injEq]
        refine ⟨by omega, by omega, by omega, by omega⟩
      · next h1 =>
        split
        · next h2 =>
          rw [ih (t - 3600) (by omega) _ _ _ hd (Nat.mod_lt _ (by norm_num)) hm]
          simp only [Prod.mk.injEq]
          refine ⟨by omega, by omega, by omega, by omega⟩
        · next h2 =>
          rw [ih (t - 60) (by omega) _ _ _ hd hh (Nat.mod_lt _ (by norm_num))]
          simp only [Prod.mk.injEq]
          refine ⟨by omega, by omega, by omega, by omega⟩
    · next h0 =>
      simp only [Prod.mk.injEq]
      refine ⟨by omega, by omega, by omega, by omega⟩

/-- Spec-side phrase for one unit of the Duration Formatter: empty when the
unit's value is zero, the singular wording at exactly 1, plural otherwise. -/
def unitPhrase (v : Nat) (sing plur : List Char) : List Char :=
  if 0 < v then natStr v ++ (if v = 1 then sing else plur) else []

theorem toI32_of_lt (n : Nat) (h : n < 2 ^ 31) : toI32 n = n := by
  unfold toI32
  rw [Nat.mod_eq_of_lt (by omega), if_pos h]

theorem intStr_natCast (n : Nat) : intStr (n : Int) = natStr n := rfl

/-- Below `2 ^ 31` days' worth of seconds no accumulator leaves the `i32`
range, and the formatter emits the clean per-unit decomposition. -/
theorem time_to_english_eq (t : Nat) (hlt : t < 2 ^ 31 * 86400) :
    time_to_english t
      = unitPhrase (t / 86400) " day ".data " days ".data
        ++ unitPhrase (t % 86400 / 3600) " hour ".data " hours ".data
        ++ unitPhrase (t % 3600 / 60) " minute ".data " minutes ".data
        ++ unitPhrase (t % 60) " second".data " seconds".data := by
  have hd : t / 86400 < 2 ^ 31 := by omega
  have hh : t % 86400 / 3600 < 2 ^ 31 := by omega
  have hm : t % 3600 / 60 < 2 ^ 31 := by omega
  simp only [time_to_english,
    timeLoop_spec t 0 0 0 (by norm_num) (by norm_num) (by norm_num), Nat.zero_add,
    Nat.mod_eq_of_lt (show t / 86400 < 2 ^ 32 by omega),
    Nat.mod_eq_of_lt (show t % 86400 / 3600 < 2 ^ 32 by omega),
    Nat.mod_eq_of_lt (show t % 3600 / 60 < 2 ^ 32 by omega),
    toI32_of_lt _ hd, toI32_of_lt _ hh, toI32_of_lt _ hm,
    intStr_natCast, unitPhrase, Nat.cast_pos, Nat.cast_eq_one]

/-! ## Claim C6 — Duration Formatter zero case (corrected) -/

/-- C6 counterexample: at input exactly 0 seconds the formatter does not
return `"0 seconds"`; the `time > 0` guard suppresses the seconds phrase. -/
theorem C6_zero_counterexample : time_to_english 0 ≠ "0 seconds".data := by
  rw [time_to_english_eq 0 (by norm_num)]
  decide

/-- C6 (amended): for input exactly 0 seconds the formatter's output is the
empty string — the seconds component, like every other unit, is omitted
when its value is zero, so nothing at all is emitted. -/
theorem C6_zero_amended : time_to_english 0 = [] := by
  rw [time_to_english_eq 0 (by norm_num)]
  decide

/-! ## Claim C7 — Duration Formatter decomposition (corrected) -/

/-- C7 counterexample: the decomposition fails at the positive input
`2 ^ 31 * 86400` seconds. There the `i32` day accumulator has wrapped to
`-2 ^ 31`, so its `> 0` test fails and the formatter emits the empty string
instead of the decomposition phrase `"2147483648 days "` the claim
requires (a debug build would abort at the overflowing increment instead). -/
theorem C7_overflow_counterexample :
    0 < 2 ^ 31 * 86400
    ∧ time_to_english (2 ^ 31 * 86400) = []
    ∧ unitPhrase (2 ^ 31 * 86400 / 86400) " day ".data " days ".data
        ++ unitPhrase (2 ^ 31 * 86400 % 86400 / 3600) " hour ".data " hours ".data
        ++ unitPhrase (2 ^ 31 * 86400 % 3600 / 60) " minute ".data " minutes ".data
        ++ unitPhrase (2 ^ 31 * 86400 % 60) " second".data " seconds".data
      = natStr (2 ^ 31) ++ " days ".data
    ∧ time_to_english (2 ^ 31 * 86400)
      ≠ unitPhrase (2 ^ 31 * 86400 / 86400) " day ".data " days ".data
        ++ unitPhrase (2 ^ 31 * 86400 % 86400 / 3600) " hour ".data " hours ".data
        ++ unitPhrase (2 ^ 31 * 86400 % 3600 / 60) " minute ".data " minutes ".data
        ++ unitPhrase (2 ^ 31 * 86400 % 60) " second".data " seconds".data := by
  have hloop : timeLoop (2 ^ 31 * 86400) 0 0 0 = (2 ^ 31, 0, 0, 0) := by
    rw [timeLoop_spec (2 ^ 31 * 86400) 0 0 0 (by norm_num) (by norm_num) (by norm_num)]
    norm_num
  have hzero : time_to_english (2 ^ 31 * 86400) = [] := by
    rw [time_to_english, hloop]
    norm_num [toI32]
  have hphrase : unitPhrase (2 ^ 31 * 86400 / 86400) " day ".data " days ".data
      ++ unitPhrase (2 ^ 31 * 86400 % 86400 / 3600) " hour ".data " hours ".data
      ++ unitPhrase (2 ^ 31 * 86400 % 3600 / 60) " minute ".data " minutes ".data
      ++ unitPhrase (2 ^ 31 * 86400 % 60) " second".data " seconds".data
      = natStr (2 ^ 31) ++ " days ".data := by
    norm_num [unitPhrase]
  refine ⟨by norm_num, hzero, hphrase, ?_⟩
  rw [hzero, hphrase]
  decide

/-- C7 (amended): for every positive second count `n` below `2 ^ 31` days'
worth of seconds (`n < 2 ^ 31 * 86400`, before the `i32` day accumulator
overflows) the output decomposes `n` into days, hours, minutes and
remaining seconds (with the stated equation and bounds), largest unit
first, omitting zero-valued units, singular exactly at count 1, with a
trailing space after the day/hour/minute phrases and none after the
seconds phrase (visible in the phrase literals); in particular
`format 59 = "59 seconds"` and `format 60 = "1 minute "`. -/
theorem C7_duration_decomposition :
    (∀ n : Nat, 0 < n → n < 2 ^ 31 * 86400 →
      time_to_english n
        = unitPhrase (n / 86400) " day ".data " days ".data
          ++ unitPhrase (n % 86400 / 3600) " hour ".data " hours ".data
          ++ unitPhrase (n % 3600 / 60) " minute ".data " minutes ".data
          ++ unitPhrase (n % 60) " second".data " seconds".data
      ∧ n / 86400 * 86400 + n % 86400 / 3600 * 3600 + n % 3600 / 60 * 60 + n % 60 = n
      ∧ n % 86400 / 3600 < 24 ∧ n % 3600 / 60 < 60 ∧ n % 60 < 60)
    ∧ time_to_english 59 = "59 seconds".data
    ∧ time_to_english 60 = "1 minute ".data := by
  refine ⟨fun n _ hlt =>
    ⟨time_to_english_eq n hlt, by omega, by omega, by omega, by omega⟩, ?_, ?_⟩
  · rw [time_to_english_eq 59 (by norm_num)]; decide
  · rw [time_to_english_eq 60 (by norm_num)]; decide

/-- C7 witness: the amended decomposition applied at the concrete input
3661 = 1 hour + 1 minute + 1 second. -/
theorem C7_duration_decomposition_witness :
    0 < 3661 ∧ 3661 < 2 ^ 31 * 86400
    ∧ (time_to_english 3661
        = unitPhrase (3661 / 86400) " day ".data " days ".data
          ++ unitPhrase (3661 % 86400 / 3600) " hour ".data " hours ".data
          ++ unitPhrase (3661 % 3600 / 60) " minute ".data " minutes ".data
          ++ unitPhrase (3661 % 60) " second".data " seconds".data
      ∧ 3661 / 86400 * 86400 + 3661 % 86400 / 3600 * 3600 + 3661 % 3600 / 60 * 60 + 3661 % 60 = 3661
      ∧ 3661 % 86400 / 3600 < 24 ∧ 3661 % 3600 / 60 < 60 ∧ 3661 % 60 < 60) :=
  ⟨by decide, by norm_num, C7_duration_decomposition.1 3661 (by decide) (by norm_num)⟩

/-! ## Claim C4 — down-interface rendering (confirmed) -/

/-- C4: a record with `enabled = false` renders as exactly the fixed down
message, whatever its other fields hold. -/
theorem C4_down_render (w : WgInterface) (now : Nat) (h : w.enabled = false) :
    w.render now = "Interface is down.".data := by
  simp [WgInterface.render, h]

/-- Down record carrying stale key, port, fwmark and peer data, for the C4
witness. -/
def staleDown : WgInterface :=
  { enabled := false
    private_key := "STALEPRIVATEKEY".data
    public_key := "STALEPUBLICKEY".data
    listen_port := 51820
    fwmark := some "0x1".data
    peers := [{ public_key := "PEERKEY".data
                preshared_key := some "PSK".data
                endpoint := "1.2.3.4:51820".data
                allowed_ips := "::/0".data
                latest_handshake := 7
                transfer_rx := 8
                transfer_tx := 9
                persistent_keepalive := true }]
    show_priv := true }

/-- C4 witness: the theorem applied to a concrete down record full of stale
key and peer data. -/
theorem C4_down_render_witness :
    staleDown.enabled = false ∧ staleDown.render 1000 = "Interface is down.".data :=
  ⟨rfl, C4_down_render staleDown 1000 rfl⟩

/-! ## Claim C8 — toggle frame condition (corrected) -/

/-- C8 counterexample: the toggle does mutate the record it is invoked on
(the claim asserted every field of every record is unchanged). -/
theorem C8_toggle_counterexample : WgInterface.toggle_privkey wgDefault ≠ wgDefault := by
  decide

/-- C8 (amended): the toggle flips the record's own redaction flag
`show_priv` and leaves every other field of the record unchanged. -/
theorem C8_toggle_frame (w : WgInterface) :
    (w.toggle_privkey).show_priv = !w.show_priv
    ∧ (w.toggle_privkey).enabled = w.enabled
    ∧ (w.toggle_privkey).private_key = w.private_key
    ∧ (w.toggle_privkey).public_key = w.public_key
    ∧ (w.toggle_privkey).listen_port = w.listen_port
    ∧ (w.toggle_privkey).fwmark = w.fwmark
    ∧ (w.toggle_privkey).peers = w.peers :=
  ⟨rfl, rfl, rfl, rfl, rfl, rfl, rfl⟩

/-! ## Claim C9 — refresh idempotence (confirmed) -/

/-- C9: refreshing twice from the same external inputs stores the same
interface map as refreshing once, and every interface renders to
bitwise-identical text after the two refreshes. -/
theorem C9_refresh_idempotent (st : InterfacesMap) (dump : List Char)
    (conf : List (List Char)) (now : Nat) :
    ((st.refresh dump conf).refresh dump conf).interfaces
      = (st.refresh dump conf).interfaces
    ∧ ∀ k, (mapLookup ((st.refresh dump conf).refresh dump conf).interfaces k).map
          (fun w => w.render now)
        = (mapLookup (st.refresh dump conf).interfaces k).map (fun w => w.render now) := by
  cases h : refreshResult dump conf with
  | none => simp [InterfacesMap.refresh, h]
  | some m => simp [InterfacesMap.refresh, h]

/-! ## Claim C10 — unconditional last-segment drop (confirmed) -/

/-- C10: the parser always drops the final newline-separated segment of the
dump text before scanning; for a dump that does not end with the trailing
separator, this is its last data line, which is neither parsed nor reported
— a lone well-formed `wg0` header line without a trailing newline parses to
the empty interface map. -/
theorem C10_last_segment_drop :
    (∀ lines : List (List Char), lines ≠ [] → (∀ l ∈ lines, '\n' ∉ l) →
      dumpLines (joinWith ['\n'] lines) = lines.dropLast)
    ∧ parseDump "wg0\tPRIV\tPUB\t51820\toff".data = some [] := by
  constructor
  · intro lines h1 h2
    rw [dumpLines, splitSep_joinWith '\n' lines h1 h2]
  · decide

/-- C10 witness: the general drop applied to a concrete two-line dump text
with no trailing separator — only the first line survives. -/
theorem C10_last_segment_drop_witness :
    (["ab".data, "wg9\tx".data] ≠ ([] : List (List Char)))
    ∧ dumpLines (joinWith ['\n'] ["ab".data, "wg9\tx".data]) = ["ab".data] :=
  ⟨by decide,
    (C10_last_segment_drop.1 ["ab".data, "wg9\tx".data] (by decide) (by decide)).trans
      (by decide)⟩

/-! ## Claim C5 — private-key redaction (corrected) -/

/-- Enabled record whose private key coincides with a word of the fixed
rendered text, for the C5 counterexample. -/
def revealLeak : WgInterface :=
  { enabled := true
    private_key := "Public".data
    public_key := "K".data
    listen_port := 0
    fwmark := none
    peers := []
    show_priv := false }

/-- C5 counterexample: with the reveal flag false the rendered output can
still contain the literal private-key string — here the key `"Public"`
occurs inside the fixed `"Public Key:"` label, shown by an explicit
decomposition of the output around it. -/
theorem C5_redaction_counterexample :
    revealLeak.show_priv = false ∧ revealLeak.enabled = true
    ∧ revealLeak.render 0
      = "Private Key: (hidden)\n".data ++ revealLeak.private_key
        ++ " Key: K\nListen Port: 0\nfwmark: off\n----- Peers -----\n ".data := by
  refine ⟨rfl, rfl, ?_⟩
  decide

/-- C5 (amended): with the reveal flag false the private-key line shows the
`"(hidden)"` placeholder, so the rendered output is independent of the
private key — two records differing only in `private_key` render
identically, hence the key itself never influences the output; with the
reveal flag true the output of an enabled record contains the literal
private-key value. -/
theorem C5_redaction (w : WgInterface) (k : List Char) (now : Nat) :
    (w.show_priv = false →
      WgInterface.render { w with private_key := k } now = w.render now)
    ∧ (w.show_priv = true → w.enabled = true →
      ∃ s t, w.render now = s ++ w.private_key ++ t) := by
  constructor
  · intro h
    cases hw : w.enabled <;> simp [WgInterface.render, h, hw]
  · intro h1 h2
    refine ⟨"Private Key: ".data,
      "\n".data ++ "Public Key: ".data ++ w.public_key ++ "\n".data
        ++ "Listen Port: ".data ++ natStr w.listen_port ++ "\n".data
        ++ "fwmark: ".data ++ w.fwmark.getD "off".data ++ "\n".data
        ++ "----- Peers -----\n".data
        ++ (w.peers.map (fun p => p.render now ++ "\n".data)).flatten
        ++ " ".data, ?_⟩
    simp [WgInterface.render, h1, h2, List.append_assoc]

/-- Enabled record with the reveal flag set, for the C5 witness. -/
def revealOn : WgInterface :=
  { enabled := true
    private_key := "SECRETKEY".data
    public_key := "K".data
    listen_port := 7
    fwmark := none
    peers := []
    show_priv := true }

/-- C5 witness: the redaction independence applied to a concrete hidden
record, and the reveal case applied to a concrete revealing record. -/
theorem C5_redaction_witness :
    (revealLeak.show_priv = false
      ∧ WgInterface.render { revealLeak with private_key := "OTHER".data } 5
        = revealLeak.render 5)
    ∧ (revealOn.show_priv = true ∧ revealOn.enabled = true
      ∧ ∃ s t, revealOn.render 5 = s ++ revealOn.private_key ++ t) :=
  ⟨⟨rfl, (C5_redaction revealLeak "OTHER".data 5).1 rfl⟩,
    ⟨rfl, rfl, (C5_redaction revealOn [] 5).2 rfl rfl⟩⟩

/-! ## Claim C3 — malformed-input atomicity (corrected) -/

theorem parseLines_cons_none (l : List Char) (rest : List (List Char))
    (acc : List (List Char × WgInterface))
    (h : ∀ acc', parseLines rest acc' = none) :
    parseLines (l :: rest) acc = none := by
  simp only [parseLines]
  split
  · split
    · rfl
    · split
      · rfl
      · exact h _
  · exact h _

theorem parseLines_skip (l : List Char) (rest : List (List Char))
    (acc : List (List Char × WgInterface))
    (h : ¬ (splitSep '\t' l).length = 5) :
    parseLines (l :: rest) acc = parseLines rest acc := by
  simp only [parseLines, if_neg h]

theorem parseLines_skipAll (ls rest : List (List Char))
    (acc : List (List Char × WgInterface))
    (h : ∀ l ∈ ls, ¬ (splitSep '\t' l).length = 5) :
    parseLines (ls ++ rest) acc = parseLines rest acc := by
  induction ls with
  | nil => rfl
  | cons x ys ih =>
    rw [List.cons_append, parseLines_skip _ _ _ (h x (by simp))]
    exact ih fun l hl => h l (List.mem_cons_of_mem _ hl)

theorem parseLines_cons_header (l : List Char) (rest : List (List Char))
    (acc : List (List Char × WgInterface)) (n pr pu po fw : List Char)
    (h5 : splitSep '\t' l = [n, pr, pu, po, fw]) :
    parseLines (l :: rest) acc
      = match rustParseUint 16 po with
        | none => none
        | some port =>
          match ((rest.map (splitSep '\t')).takeWhile
              (fun x => n = x.headD [])).mapM parsePeerFields with
          | none => none
          | some peers =>
            parseLines rest (btreeInsert n
              { enabled := true, private_key := pr, public_key := pu,
                listen_port := port,
                fwmark := if fw = "off".data then none else some fw,
                peers := peers, show_priv := false } acc) := by
  conv_lhs => rw [parseLines, h5]
  rfl

theorem parseLines_badPort (pre : List (List Char)) (l : List Char)
    (post : List (List Char)) (acc : List (List Char × WgInterface))
    (n pr pu po fw : List Char)
    (h5 : splitSep '\t' l = [n, pr, pu, po, fw])
    (hp : rustParseUint 16 po = none) :
    parseLines (pre ++ l :: post) acc = none := by
  induction pre generalizing acc with
  | nil => simp [parseLines, h5, hp]
  | cons x ys ih => exact parseLines_cons_none _ _ _ fun acc' => ih acc'

theorem parseLines_badWindow (pre : List (List Char)) (l : List Char)
    (post : List (List Char)) (acc : List (List Char × WgInterface))
    (n pr pu po fw : List Char) (port : Nat)
    (h5 : splitSep '\t' l = [n, pr, pu, po, fw])
    (hp : rustParseUint 16 po = some port)
    (hw : ((post.map (splitSep '\t')).takeWhile
        (fun x => n = x.headD [])).mapM parsePeerFields = none) :
    parseLines (pre ++ l :: post) acc = none := by
  induction pre generalizing acc with
  | nil => rw [List.nil_append, parseLines_cons_header _ _ _ n pr pu po fw h5, hp, hw]
  | cons x ys ih => exact parseLines_cons_none _ _ _ fun acc' => ih acc'

/-- A dump in which a malformed record survives the unconditional
final-segment drop: some remaining line is a 5-field header whose
listen-port fails to parse as a u16, or a 5-field header with a good port
whose peer window (the following lines taken while their leading field
matches) contains a line the peer parser rejects. -/
def badSurvivingDump (dump : List Char) : Prop :=
  ∃ pre l post, dumpLines dump = pre ++ l :: post
    ∧ ((∃ n pr pu po fw, splitSep '\t' l = [n, pr, pu, po, fw]
          ∧ rustParseUint 16 po = none)
      ∨ (∃ n pr pu po fw port, splitSep '\t' l = [n, pr, pu, po, fw]
          ∧ rustParseUint 16 po = some port
          ∧ ((post.map (splitSep '\t')).takeWhile
              (fun x => n = x.headD [])).mapM parsePeerFields = none))

/-- C3 counterexample: this dump's only line has exactly 5 fields and an
unparsable listen-port field, yet — being the final newline-separated
segment, which the parser pops unconditionally — the refresh succeeds with
an empty map instead of failing. -/
theorem C3_malformed_counterexample :
    (splitSep '\t' "wg0\tA\tB\tx\toff".data).length = 5
    ∧ rustParseUint 16 "x".data = none
    ∧ refreshResult "wg0\tA\tB\tx\toff".data [] = some [] :=
  ⟨by decide, by decide, by decide⟩

/-- C3 (amended): whenever a malformed record (5-field header with a bad
listen-port, or a processed peer line with a bad numeric or sentinel field)
survives the parser's unconditional final-segment drop, the refresh fails
instead of producing a map, and the registry's previously stored interface
map is left unchanged. -/
theorem C3_malformed_atomicity (dump : List Char) (conf : List (List Char))
    (h : badSurvivingDump dump) :
    refreshResult dump conf = none
    ∧ ∀ st : InterfacesMap, (st.refresh dump conf).interfaces = st.interfaces := by
  obtain ⟨pre, l, post, hsplit, hbad⟩ := h
  have hparse : parseDump dump = none := by
    rw [parseDump, hsplit]
    rcases hbad with ⟨n, pr, pu, po, fw, h5, hp⟩ | ⟨n, pr, pu, po, fw, port, h5, hp, hw⟩
    · exact parseLines_badPort pre l post [] n pr pu po fw h5 hp
    · exact parseLines_badWindow pre l post [] n pr pu po fw port h5 hp hw
  have hr : refreshResult dump conf = none := by simp [refreshResult, hparse]
  exact ⟨hr, fun st => by simp [InterfacesMap.refresh, hr]⟩

/-- C3 witness: the amended atomicity applied to a concrete dump whose bad
header does survive (the dump ends with the trailing separator): the
refresh fails and a concrete prior registry keeps its stored map. -/
theorem C3_malformed_atomicity_witness :
    refreshResult "wg0\tA\tB\tx\toff\n".data [] = none
    ∧ (InterfacesMap.refresh ⟨[("k".data, wgDefault)], []⟩
        "wg0\tA\tB\tx\toff\n".data []).interfaces = [("k".data, wgDefault)] := by
  have h := C3_malformed_atomicity "wg0\tA\tB\tx\toff\n".data []
    ⟨[], "wg0\tA\tB\tx\toff".data, [], by decide,
      Or.inl ⟨"wg0".data, "A".data, "B".data, "x".data, "off".data, by decide, by decide⟩⟩
  exact ⟨h.1, h.2 ⟨[("k".data, wgDefault)], []⟩⟩

/-! ## Lemmas about the modelled `BTreeMap` -/

theorem mapLookup_btreeInsert_self (k : List Char) (v : WgInterface)
    (m : List (List Char × WgInterface)) :
    mapLookup (btreeInsert k v m) k = some v := by
  induction m with
  | nil => simp [btreeInsert, mapLookup]
  | cons p rest ih =>
    obtain ⟨k', v'⟩ := p
    by_cases h1 : lexLt k k' = true
    · simp [btreeInsert, h1, mapLookup]
    · by_cases h2 : k = k'
      · subst h2
        simp [btreeInsert, h1, mapLookup]
      · simp [btreeInsert, h1, h2, mapLookup, ih]

theorem mapLookup_btreeInsert_ne (k k' : List Char) (v : WgInterface)
    (m : List (List Char × WgInterface)) (h : k ≠ k') :
    mapLookup (btreeInsert k' v m) k = mapLookup m k := by
  induction m with
  | nil => simp [btreeInsert, mapLookup, h]
  | cons p rest ih =>
    obtain ⟨k2, v2⟩ := p
    by_cases h1 : lexLt k' k2 = true
    · simp [btreeInsert, h1, mapLookup, h]
    · by_cases h2 : k' = k2
      · subst h2; simp [btreeInsert, h1, mapLookup, h]
      · simp [btreeInsert, h1, h2, mapLookup, ih]

theorem keys_btreeInsert_perm (k : List Char) (v : WgInterface)
    (m : List (List Char × WgInterface)) (h : mapLookup m k = none) :
    List.Perm ((btreeInsert k v m).map Prod.fst) (k :: m.map Prod.fst) := by
  induction m with
  | nil => simp [btreeInsert]
  | cons p rest ih =>
    obtain ⟨k2, v2⟩ := p
    have hk2 : ¬ k = k2 := by
      intro e
      subst e
      simp [mapLookup] at h
    have hrest : mapLookup rest k = none := by
      simpa [mapLookup, hk2] using h
    by_cases h1 : lexLt k k2 = true
    · simp [btreeInsert, h1]
    · simp only [btreeInsert, if_neg h1, if_neg hk2, List.map_cons]
      exact ((ih hrest).cons k2).trans (List.Perm.swap k k2 _)

theorem mapLookup_foldl_not_mem (names : List (List Char))
    (m : List (List Char × WgInterface)) (k : List Char) (h : k ∉ names) :
    mapLookup (names.foldl (fun acc n => btreeInsert n wgDefault acc) m) k
      = mapLookup m k := by
  induction names generalizing m with
  | nil => rfl
  | cons x ys ih =>
    have hx : k ≠ x := fun e => h (e ▸ List.mem_cons_self x ys)
    rw [List.foldl_cons, ih _ fun hm => h (List.mem_cons_of_mem _ hm),
      mapLookup_btreeInsert_ne _ _ _ _ hx]

theorem mapLookup_foldl_mem (names : List (List Char))
    (m : List (List Char × WgInterface)) (k : List Char) (h : k ∈ names) :
    mapLookup (names.foldl (fun acc n => btreeInsert n wgDefault acc) m) k
      = some wgDefault := by
  induction names generalizing m with
  | nil => simp at h
  | cons x ys ih =>
    by_cases hk : k ∈ ys
    · rw [List.foldl_cons]
      exact ih _ hk
    · have hx : k = x := by
        rcases List.mem_cons.mp h with h' | h'
        · exact h'
        · exact absurd h' hk
      subst hx
      rw [List.foldl_cons, mapLookup_foldl_not_mem ys _ k hk, mapLookup_btreeInsert_self]

/-! ## Claim C2 — configuration reconciler (corrected) -/

/-- C2 counterexample: for the configuration file `a.conf.conf` — whose
fixed-suffix base name is `a.conf` — the reconciler deletes every
occurrence of `".conf"` and registers the entry under `a`, so the claimed
entry under the base name `a.conf` does not exist. -/
theorem C2_reconciler_counterexample :
    List.isSuffixOf ".conf".data "a.conf.conf".data = true
    ∧ refreshResult [] ["a.conf.conf".data] = some [("a".data, wgDefault)]
    ∧ mapLookup [("a".data, wgDefault)] "a.conf".data = none :=
  ⟨by decide, by decide, by decide⟩

/-- C2 (amended): after a refresh whose dump parses to the map `up`, every
configuration file whose name contains the fixed suffix `".conf"` and whose
base name — the file name with every `".conf"` occurrence deleted, as
`replace` produces — is not a key of `up` yields a registry entry under
that base name holding the all-default `enabled = false` record, and no
entry parsed from the dump is overwritten; concretely, parsed set `{wg0}`
with directory `{wg0.conf, wg1.conf}` yields `wg0` up and `wg1` default. -/
theorem C2_reconciler :
    (∀ (dump : List Char) (conf : List (List Char))
        (up : List (List Char × WgInterface)),
      parseDump dump = some up →
      ∃ M, refreshResult dump conf = some M
        ∧ (∀ k, containsKey up k = true → mapLookup M k = mapLookup up k)
        ∧ (∀ f ∈ conf, rustContains f confSuffix = true →
            containsKey up (rustReplace f confSuffix []) = false →
            mapLookup M (rustReplace f confSuffix []) = some wgDefault))
    ∧ wgDefault.enabled = false
    ∧ refreshResult "wg0\tPRIV\tPUB\t51820\toff\n".data
        ["wg0.conf".data, "wg1.conf".data]
      = some [("wg0".data,
          { enabled := true, private_key := "PRIV".data, public_key := "PUB".data,
            listen_port := 51820, fwmark := none, peers := [], show_priv := false }),
          ("wg1".data, wgDefault)] := by
  refine ⟨?_, rfl, by decide⟩
  intro dump conf up hup
  have hr : refreshResult dump conf
      = some ((((conf.filter (fun x => rustContains x confSuffix)).map
            (fun x => rustReplace x confSuffix [])).filter
            (fun x => !containsKey up x)).foldl
          (fun m item => btreeInsert item wgDefault m) up) := by
    simp [refreshResult, hup]
  refine ⟨_, hr, ?_, ?_⟩
  · intro k hk
    have hnot : k ∉ (((conf.filter (fun x => rustContains x confSuffix)).map
        (fun x => rustReplace x confSuffix [])).filter
        (fun x => !containsKey up x)) := by
      intro hmem
      have h2 := (List.mem_filter.mp hmem).2
      rw [hk] at h2
      simp at h2
    exact mapLookup_foldl_not_mem _ _ _ hnot
  · intro f hf hc hnc
    apply mapLookup_foldl_mem
    exact List.mem_filter.mpr
      ⟨List.mem_map.mpr ⟨f, List.mem_filter.mpr ⟨hf, hc⟩, rfl⟩, by simp [hnc]⟩

/-- Dump, directory listing and parsed map for the C2 witness. -/
def dumpW : List Char := "wg0\tPRIV\tPUB\t51820\toff\n".data

/-- Directory listing for the C2 witness. -/
def confW : List (List Char) := ["wg0.conf".data, "wg1.conf".data]

/-- Parsed (up) map for the C2 witness. -/
def upW : List (List Char × WgInterface) :=
  [("wg0".data,
    { enabled := true, private_key := "PRIV".data, public_key := "PUB".data,
      listen_port := 51820, fwmark := none, peers := [], show_priv := false })]

/-- C2 witness: the amended reconciler property applied at a concrete dump
and directory listing. -/
theorem C2_reconciler_witness :
    parseDump dumpW = some upW
    ∧ ∃ M, refreshResult dumpW confW = some M
      ∧ (∀ k, containsKey upW k = true → mapLookup M k = mapLookup upW k)
      ∧ (∀ f ∈ confW, rustContains f confSuffix = true →
          containsKey upW (rustReplace f confSuffix []) = false →
          mapLookup M (rustReplace f confSuffix []) = some wgDefault) :=
  ⟨by decide, C2_reconciler.1 dumpW confW upW (by decide)⟩

/-! ## Claim C1 — well-formed dumps and peer attribution -/

/-- Raw field material of one peer line of a well-formed dump. -/
structure RawPeer where
  public_key : List Char
  preshared_key : List Char
  endpoint : List Char
  allowed_ips : List Char
  latest_handshake : List Char
  transfer_rx : List Char
  transfer_tx : List Char
  keepalive : List Char
deriving DecidableEq, Repr

/-- The nine tab-separated fields of a peer line, led by the owning
interface's name. -/
def peerFields (name : List Char) (p : RawPeer) : List (List Char) :=
  [name, p.public_key, p.preshared_key, p.endpoint, p.allowed_ips,
   p.latest_handshake, p.transfer_rx, p.transfer_tx, p.keepalive]

/-- One serialized peer line. -/
def peerLine (name : List Char) (p : RawPeer) : List Char :=
  joinWith ['\t'] (peerFields name p)

/-- Raw field material of one interface block of a well-formed dump: a
5-field header followed by this interface's peer lines. -/
structure RawBlock where
  name : List Char
  private_key : List Char
  public_key : List Char
  listen_port : List Char
  fwmark : List Char
  peers : List RawPeer
deriving DecidableEq, Repr

/-- The five tab-separated fields of an interface header line. -/
def headerFields (b : RawBlock) : List (List Char) :=
  [b.name, b.private_key, b.public_key, b.listen_port, b.fwmark]

/-- One serialized interface header line. -/
def headerLine (b : RawBlock) : List Char :=
  joinWith ['\t'] (headerFields b)

/-- The serialized lines of a block: the header, then exactly this
interface's peer lines, contiguously, each led by the interface name. -/
def blockLines (b : RawBlock) : List (List Char) :=
  headerLine b :: b.peers.map (peerLine b.name)

/-- The interface record a well-formed block describes: the header's own
fields, with the peer sequence obtained by parsing exactly the block's own
peer lines in source order. -/
def blockRecord (b : RawBlock) : Option WgInterface :=
  match rustParseUint 16 b.listen_port with
  | none => none
  | some port =>
    match (b.peers.map (peerFields b.name)).mapM parsePeerFields with
    | none => none
    | some peers =>
      some { enabled := true
             private_key := b.private_key
             public_key := b.public_key
             listen_port := port
             fwmark := if b.fwmark = "off".data then none else some b.fwmark
             peers := peers
             show_priv := false }

/-- A field of a well-formed dump contains neither the field separator nor
the record separator. -/
def cleanStr (s : List Char) : Prop := '\t' ∉ s ∧ '\n' ∉ s

/-- Well-formed block: clean fields throughout, and all its numeric and
sentinel material parses (port in u16 range, counters in u64 range,
keepalive one of `on`/`off`). -/
def wfBlock (b : RawBlock) : Prop :=
  (∀ f ∈ headerFields b, cleanStr f)
  ∧ (∀ p ∈ b.peers, ∀ f ∈ peerFields b.name p, cleanStr f)
  ∧ (blockRecord b).isSome

instance : DecidablePred cleanStr := fun s => by
  unfold cleanStr
  infer_instance

instance : DecidablePred wfBlock := fun b => by
  unfold wfBlock
  infer_instance

theorem splitSep_headerLine (b : RawBlock) (h : ∀ f ∈ headerFields b, cleanStr f) :
    splitSep '\t' (headerLine b) = headerFields b :=
  splitSep_joinWith '\t' _ (by simp [headerFields]) fun f hf => (h f hf).1

theorem splitSep_peerLine (name : List Char) (p : RawPeer)
    (h : ∀ f ∈ peerFields name p, cleanStr f) :
    splitSep '\t' (peerLine name p) = peerFields name p :=
  splitSep_joinWith '\t' _ (by simp [peerFields]) fun f hf => (h f hf).1

theorem newline_not_mem_joinTabs (fs : List (List Char))
    (h : ∀ f ∈ fs, cleanStr f) : '\n' ∉ joinWith ['\t'] fs := by
  intro hmem
  rcases mem_joinWith _ _ _ hmem with hs | ⟨f, hf, hcf⟩
  · exact absurd hs (by decide)
  · exact (h f hf).2 hcf

theorem parseLines_blocks (blocks : List RawBlock)
    (acc : List (List Char × WgInterface))
    (hwf : ∀ b ∈ blocks, wfBlock b)
    (hnd : (blocks.map RawBlock.name).Nodup)
    (hacc : ∀ b ∈ blocks, mapLookup acc b.name = none) :
    ∃ M, parseLines ((blocks.map blockLines).flatten) acc = some M
      ∧ (∀ b ∈ blocks, mapLookup M b.name = blockRecord b)
      ∧ (∀ k, (∀ b ∈ blocks, b.name ≠ k) → mapLookup M k = mapLookup acc k)
      ∧ List.Perm (M.map Prod.fst) ((blocks.map RawBlock.name) ++ acc.map Prod.fst) := by
  induction blocks generalizing acc with
  | nil => exact ⟨acc, rfl, by simp, fun k _ => rfl, by simp⟩
  | cons b rest ih =>
    obtain ⟨hclean, hpclean, hsome⟩ := hwf b (List.mem_cons_self _ _)
    obtain ⟨port, hport⟩ : ∃ port, rustParseUint 16 b.listen_port = some port := by
      cases hp : rustParseUint 16 b.listen_port with
      | none => rw [blockRecord, hp] at hsome; simp at hsome
      | some port => exact ⟨port, rfl⟩
    obtain ⟨peers, hpeers⟩ : ∃ peers,
        (b.peers.map (peerFields b.name)).mapM parsePeerFields = some peers := by
      cases hp : (b.peers.map (peerFields b.name)).mapM parsePeerFields with
      | none => rw [blockRecord, hport, hp] at hsome; simp at hsome
      | some peers => exact ⟨peers, rfl⟩
    have hrec : blockRecord b = some
        { enabled := true, private_key := b.private_key, public_key := b.public_key,
          listen_port := port,
          fwmark := if b.fwmark = "off".data then none else some b.fwmark,
          peers := peers, show_priv := false } := by
      rw [blockRecord, hport, hpeers]
    have hnotin : b.name ∉ rest.map RawBlock.name := (List.nodup_cons.mp hnd).1
    -- the peer window of the head block is exactly its own peer lines
    have hmapped : (b.peers.map (peerLine b.name)).map (splitSep '\t')
        = b.peers.map (peerFields b.name) := by
      rw [List.map_map]
      exact List.map_congr_left fun p hp => splitSep_peerLine b.name p (hpclean p hp)
    have hwindow :
        (((b.peers.map (peerLine b.name) ++ (rest.map blockLines).flatten).map
            (splitSep '\t')).takeWhile (fun x => b.name = x.headD []))
          = b.peers.map (peerFields b.name) := by
      rw [List.map_append, hmapped,
        List.takeWhile_append_of_pos (by
          intro x hx
          obtain ⟨p, hp, rfl⟩ := List.mem_map.mp hx
          simp [peerFields])]
      have hrest0 : (((rest.map blockLines).flatten.map (splitSep '\t')).takeWhile
          (fun x => b.name = x.headD [])) = [] := by
        cases rest with
        | nil => simp
        | cons b' rest' =>
          obtain ⟨hclean', _, _⟩ := hwf b' (List.mem_cons_of_mem _ (List.mem_cons_self _ _))
          have hb' : b'.name ∈ (b' :: rest').map RawBlock.name := by simp
          have hne : ¬ b.name = b'.name := by
            intro e
            exact hnotin (e ▸ hb')
          simp only [List.map_cons, List.flatten_cons, blockLines, List.cons_append,
            List.map_append]
          rw [List.takeWhile_cons, splitSep_headerLine b' hclean']
          simp [headerFields, hne]
      rw [hrest0, List.append_nil]
    -- one step of the scan: consume the header, then skip the peer lines
    have hstep : parseLines (((b :: rest).map blockLines).flatten) acc
        = parseLines ((rest.map blockLines).flatten)
            (btreeInsert b.name
              { enabled := true, private_key := b.private_key,
                public_key := b.public_key, listen_port := port,
                fwmark := if b.fwmark = "off".data then none else some b.fwmark,
                peers := peers, show_priv := false } acc) := by
      have h1 : ((b :: rest).map blockLines).flatten
          = headerLine b :: (b.peers.map (peerLine b.name)
              ++ (rest.map blockLines).flatten) := by
        simp [blockLines]
      rw [h1, parseLines_cons_header _ _ _ b.name b.private_key b.public_key
          b.listen_port b.fwmark (by
            rw [splitSep_headerLine b hclean]; rfl),
        hport, hwindow, hpeers]
      apply parseLines_skipAll
      intro l hl
      obtain ⟨p, hp, rfl⟩ := List.mem_map.mp hl
      rw [splitSep_peerLine b.name p (hpclean p hp)]
      simp [peerFields]
    have hacc' : ∀ b' ∈ rest, mapLookup (btreeInsert b.name
        { enabled := true, private_key := b.private_key, public_key := b.public_key,
          listen_port := port,
          fwmark := if b.fwmark = "off".data then none else some b.fwmark,
          peers := peers, show_priv := false } acc) b'.name = none := by
      intro b' hb'
      have hne : b'.name ≠ b.name := by
        intro e
        exact hnotin (e ▸ List.mem_map_of_mem RawBlock.name hb')
      rw [mapLookup_btreeInsert_ne _ _ _ _ hne]
      exact hacc b' (List.mem_cons_of_mem _ hb')
    obtain ⟨M, hM, hlook, hframe, hperm⟩ := ih _
      (fun b' hb' => hwf b' (List.mem_cons_of_mem _ hb'))
      (List.nodup_cons.mp hnd).2 hacc'
    refine ⟨M, by rw [hstep]; exact hM, ?_, ?_, ?_⟩
    · intro b' hb'
      rcases List.mem_cons.mp hb' with hb' | hb'
      · subst hb'
        rw [hframe b'.name (fun b2 hb2 e => hnotin (e ▸ List.mem_map_of_mem RawBlock.name hb2)),
          mapLookup_btreeInsert_self, hrec]
      · exact hlook b' hb'
    · intro k hk
      rw [hframe k (fun b2 hb2 => hk b2 (List.mem_cons_of_mem _ hb2)),
        mapLookup_btreeInsert_ne _ _ _ _ (Ne.symm (hk b (List.mem_cons_self _ _)))]
    · have hkeys := keys_btreeInsert_perm b.name
        { enabled := true, private_key := b.private_key, public_key := b.public_key,
          listen_port := port,
          fwmark := if b.fwmark = "off".data then none else some b.fwmark,
          peers := peers, show_priv := false } acc (hacc b (List.mem_cons_self _ _))
      exact hperm.trans ((List.Perm.append_left _ hkeys).trans List.perm_middle)

/-- C1: for every well-formed dump — serialized interface blocks with clean
fields, parsable numerics, distinct names and the trailing separator — the
parse succeeds and each interface's record holds exactly the parse of its
own contiguous peer lines in source order, the map keys are exactly the
block names, and the entry count equals the block count; in particular a
`wg0`/`wg1` dump with one peer each attributes each peer to its own
interface only, and a `wg0` (3 peers) / `wg1` (0 peers) dump yields exactly
2 entries with peer sequences of length 3 (in source order) and 0. -/
theorem C1_peer_attribution :
    (∀ (blocks : List RawBlock) (dump : List Char),
      dump = (((blocks.map blockLines).flatten).map (fun l => l ++ ['\n'])).flatten →
      (∀ b ∈ blocks, wfBlock b) →
      (blocks.map RawBlock.name).Nodup →
      ∃ M, parseDump dump = some M
        ∧ (∀ b ∈ blocks, mapLookup M b.name = blockRecord b)
        ∧ List.Perm (M.map Prod.fst) (blocks.map RawBlock.name)
        ∧ M.length = blocks.length)
    ∧ parseDump ("wg0\tP0\tU0\t100\toff\nwg0\tA1\t(none)\t1.1.1.1:1\t0.0.0.0/0\t10\t1\t2\toff\nwg1\tP1\tU1\t200\toff\nwg1\tB1\tpsk\t2.2.2.2:2\t::/0\t20\t3\t4\ton\n".data)
      = some [("wg0".data,
          { enabled := true, private_key := "P0".data, public_key := "U0".data,
            listen_port := 100, fwmark := none,
            peers := [{ public_key := "A1".data, preshared_key := none,
                        endpoint := "1.1.1.1:1".data, allowed_ips := "0.0.0.0/0".data,
                        latest_handshake := 10, transfer_rx := 1, transfer_tx := 2,
                        persistent_keepalive := false }],
            show_priv := false }),
          ("wg1".data,
          { enabled := true, private_key := "P1".data, public_key := "U1".data,
            listen_port := 200, fwmark := none,
            peers := [{ public_key := "B1".data, preshared_key := some "psk".data,
                        endpoint := "2.2.2.2:2".data, allowed_ips := "::/0".data,
                        latest_handshake := 20, transfer_rx := 3, transfer_tx := 4,
                        persistent_keepalive := true }],
            show_priv := false })]
    ∧ parseDump ("wg0\tP0\tU0\t100\toff\nwg0\tA1\t(none)\te1\ta1\t1\t2\t3\toff\nwg0\tA2\t(none)\te2\ta2\t4\t5\t6\toff\nwg0\tA3\tk3\te3\ta3\t7\t8\t9\ton\nwg1\tP1\tU1\t200\t0x5\n".data)
      = some [("wg0".data,
          { enabled := true, private_key := "P0".data, public_key := "U0".data,
            listen_port := 100, fwmark := none,
            peers := [{ public_key := "A1".data, preshared_key := none,
                        endpoint := "e1".data, allowed_ips := "a1".data,
                        latest_handshake := 1, transfer_rx := 2, transfer_tx := 3,
                        persistent_keepalive := false },
                      { public_key := "A2".data, preshared_key := none,
                        endpoint := "e2".data, allowed_ips := "a2".data,
                        latest_handshake := 4, transfer_rx := 5, transfer_tx := 6,
                        persistent_keepalive := false },
                      { public_key := "A3".data, preshared_key := some "k3".data,
                        endpoint := "e3".data, allowed_ips := "a3".data,
                        latest_handshake := 7, transfer_rx := 8, transfer_tx := 9,
                        persistent_keepalive := true }],
            show_priv := false }),
          ("wg1".data,
          { enabled := true, private_key := "P1".data, public_key := "U1".data,
            listen_port := 200, fwmark := some "0x5".data, peers := [],
            show_priv := false })] := by
  refine ⟨?_, by decide, by decide⟩
  intro blocks dump hdump hwf hnd
  subst hdump
  have hnl : ∀ l ∈ (blocks.map blockLines).flatten, '\n' ∉ l := by
    intro l hl
    obtain ⟨L, hL, hlL⟩ := List.mem_flatten.mp hl
    obtain ⟨b, hb, rfl⟩ := List.mem_map.mp hL
    rcases List.mem_cons.mp hlL with rfl | hpl
    · exact newline_not_mem_joinTabs _ (hwf b hb).1
    · obtain ⟨p, hp, rfl⟩ := List.mem_map.mp hpl
      exact newline_not_mem_joinTabs _ ((hwf b hb).2.1 p hp)
  have hlines : dumpLines ((((blocks.map blockLines).flatten).map
      (fun l => l ++ ['\n'])).flatten) = (blocks.map blockLines).flatten := by
    rw [dumpLines, splitSep_terminated '\n' _ hnl]
    simp
  obtain ⟨M, hM, hlook, _, hperm⟩ :=
    parseLines_blocks blocks [] hwf hnd (fun b _ => rfl)
  refine ⟨M, ?_, hlook, ?_, ?_⟩
  · rw [parseDump, hlines]
    exact hM
  · simpa using hperm
  · simpa using hperm.length_eq

/-- Single well-formed block for the C1 witness. -/
def blockW : RawBlock :=
  { name := "wg0".data, private_key := "P0".data, public_key := "U0".data,
    listen_port := "100".data, fwmark := "off".data,
    peers := [{ public_key := "A1".data, preshared_key := "(none)".data,
                endpoint := "1.1.1.1:1".data, allowed_ips := "0.0.0.0/0".data,
                latest_handshake := "10".data, transfer_rx := "1".data,
                transfer_tx := "2".data, keepalive := "off".data }] }

/-- C1 witness: the general attribution property applied to the concrete
one-block dump built from `blockW`. -/
theorem C1_peer_attribution_witness :
    (∀ b ∈ [blockW], wfBlock b) ∧ ([blockW].map RawBlock.name).Nodup
    ∧ ∃ M, parseDump (((([blockW].map blockLines).flatten).map
          (fun l => l ++ ['\n'])).flatten) = some M
        ∧ (∀ b ∈ [blockW], mapLookup M b.name = blockRecord b)
        ∧ List.Perm (M.map Prod.fst) ([blockW].map RawBlock.name)
        ∧ M.length = [blockW].length :=
  ⟨by decide, by decide,
    C1_peer_attribution.1 [blockW] _ rfl (by decide) (by decide)⟩
